import Mathlib

/-!
Verification development for the gym-membership client roster
(`api/clients.js`, `public/script.js`, `server.js`).

The JavaScript source is shallowly embedded:

* JS `Date` values at a fixed instant are modelled by their millisecond
  timestamp (`Int`); dates normalized to midnight are determined by their
  day index (days since the Unix epoch, floor division by `msPerDay`).
* a calendar date entered through the form (`YYYY-MM-DD`) is a
  `CivilDate`; parsing such a string yields the UTC-midnight timestamp
  `toDays * msPerDay`, as in ECMAScript.
* `Date.prototype.setMonth` month arithmetic (ECMAScript `MakeDay`) is
  `addMonthsDays`: the month field is advanced with year carry and the
  day-of-month is laid down from the first of the target month, so
  out-of-range days overflow into the following month.
* the MongoDB/Mongoose persistence layer is an external collaborator of
  the repository; it is modelled by a list of records plus the behavior
  the schema declares: required/format/enum validation, the two unique
  indexes (`contact`, `aadhaar`) surfacing duplicate-key errors naming
  the colliding field, and id-keyed find/replace/delete.
* each HTTP handler branch of `api/clients.js` becomes a Lean function
  from (store, request body) to (response, store, store-operation trace).

The server is assumed to run with UTC local time (Vercel default), so the
local-time month fields used by `setMonth` coincide with the civil date.
-/

/-! ## Time and calendar arithmetic -/

/-- Milliseconds per day, the constant `1000 * 60 * 60 * 24` of `script.js`. -/
def msPerDay : Int := 86400000

/-- JS `Math.ceil(a / b)` for integer `a` and positive integer `b`:
the ceiling of the exact rational quotient. -/
def jsCeilDiv (a b : Int) : Int := -((-a).fdiv b)

/-- Day index (days since the Unix epoch) of the instant `ms`, in the fixed
local timezone at offset `tz` milliseconds east of UTC. -/
def dayIndex (tz ms : Int) : Int := (ms + tz).fdiv msPerDay

/-- JS `d.setHours(0, 0, 0, 0)`: the timestamp of local midnight of the day
containing the instant `ms`, at fixed offset `tz`. -/
def localMidnightMs (tz ms : Int) : Int := dayIndex tz ms * msPerDay - tz

/-- Embedding of `calculateDaysRemaining` (`script.js`): both the end date
and now are normalized to local midnight and the millisecond difference is
divided by `msPerDay`, rounding up. -/
def calculateDaysRemaining (tz endMs nowMs : Int) : Int :=
  jsCeilDiv (localMidnightMs tz endMs - localMidnightMs tz nowMs) msPerDay

/-- Embedding of `isOverdue` (`renderClients` in `script.js`):
`daysRemaining < 0`. -/
def isOverdue (tz endMs nowMs : Int) : Bool :=
  calculateDaysRemaining tz endMs nowMs < 0

/-- Days since the Unix epoch of the civil date `y-m-d` (month `1..12`) in
the proleptic Gregorian calendar, via the standard era decomposition. -/
def daysFromCivil (y m d : Int) : Int :=
  let y2 := if m ≤ 2 then y - 1 else y
  let era := y2.fdiv 400
  let yoe := y2 - era * 400
  let mp := (m + 9).emod 12
  let doy := (153 * mp + 2).fdiv 5 + d - 1
  let doe := yoe * 365 + yoe.fdiv 4 - yoe.fdiv 100 + doy
  era * 146097 + doe - 719468

/-- A calendar date as entered in the form date input (`YYYY-MM-DD`). -/
structure CivilDate where
  year : Int
  month : Int
  day : Int
deriving DecidableEq, Repr

/-- Day index of the UTC-midnight instant denoted by a `YYYY-MM-DD` string,
as produced by the ECMAScript date-only parse. -/
def CivilDate.toDays (c : CivilDate) : Int := daysFromCivil c.year c.month c.day

/-- Embedding of
`new Date(new Date(feeDate).setMonth(new Date(feeDate).getMonth() + months))`
as a day index: ECMAScript `MakeDay` advances the month field with year
carry and counts `day - 1` days from the first of the target month, so a
day-of-month absent from the target month overflows into the next month. -/
def addMonthsDays (c : CivilDate) (n : Int) : Int :=
  let t := c.month - 1 + n
  let y := c.year + t.fdiv 12
  let m := t.emod 12 + 1
  daysFromCivil y m 1 + (c.day - 1)

/-! ## Record model (Mongoose `clientSchema` of `api/clients.js`) -/

/-- Characters removed by JS `String.prototype.trim` that can occur in form
input; Mongoose applies `trim: true` to `name`, `contact`, `aadhaar` and
`conditionDetails`. -/
def isSpaceChar (c : Char) : Bool := c == ' ' || c == '\t' || c == '\n' || c == '\r'

def trimChars (l : List Char) : List Char :=
  ((l.dropWhile isSpaceChar).reverse.dropWhile isSpaceChar).reverse

def trimString (s : String) : String := String.mk (trimChars s.toList)

/-- the `medicalCondition` subdocument of the schema. -/
structure MedicalCondition where
  hasMedicalCondition : Bool
  conditionDetails : String
deriving DecidableEq, Repr

/-- the `membership` subdocument of the schema: `feeDate` is the civil date
of the stored UTC-midnight instant and `endDateDays` the day index of the
stored `endDate` instant. -/
structure MembershipInfo where
  months : Int
  feeDate : CivilDate
  endDateDays : Int
deriving DecidableEq, Repr

/-- one stored client document; `id` models the opaque `_id` the store
assigns on insertion. -/
structure ClientRecord where
  id : Nat
  name : String
  contact : String
  aadhaar : String
  heightFt : Int
  heightIn : Int
  weight : Int
  goal : String
  feesSubmitted : Int
  feesDue : Int
  pt : String
  medicalCondition : MedicalCondition
  membership : MembershipInfo
deriving DecidableEq, Repr

/-- the document collection plus the id counter for freshly inserted
records. -/
structure Store where
  records : List ClientRecord
  nextId : Nat
deriving DecidableEq, Repr

/-- a JSON request body as destructured by the handler; `none` models an
absent (`undefined`) field. -/
structure Body where
  id : Option Nat
  name : Option String
  contact : Option String
  aadhaar : Option String
  heightFt : Option Int
  heightIn : Option Int
  weight : Option Int
  goal : Option String
  feesSubmitted : Option Int
  feesDue : Option Int
  pt : Option String
  months : Option Int
  feeDate : Option CivilDate
  hasMedicalCondition : Option Bool
  medicalConditionDetails : Option String
deriving DecidableEq, Repr

/-- JS falsiness of a string-or-undefined value, as in `!name`. -/
def jsFalsy : Option String → Bool
  | none => true
  | some s => s == ""

/-- JS truthiness of a boolean-or-undefined value, as in
`hasMedicalCondition || false` and `hasMedicalCondition ? _ : _`. -/
def jsTruthy : Option Bool → Bool
  | some true => true
  | _ => false

/-- the record value the POST and PUT branches build from the request body
(`new Client({...})` and `updateData`): every field is taken from the body,
`conditionDetails` is forced empty unless the flag is truthy, and
`membership.endDate` is computed from the submitted `feeDate` and `months`
by native month arithmetic. String fields with `trim: true` are trimmed by
the schema on casting. -/
def recordOfBody (id : Nat) (b : Body) : ClientRecord :=
  let fd := b.feeDate.getD ⟨1970, 1, 1⟩
  let m := b.months.getD 0
  { id := id
    name := trimString (b.name.getD "")
    contact := trimString (b.contact.getD "")
    aadhaar := trimString (b.aadhaar.getD "")
    heightFt := b.heightFt.getD 0
    heightIn := b.heightIn.getD 0
    weight := b.weight.getD 0
    goal := b.goal.getD ""
    feesSubmitted := b.feesSubmitted.getD 0
    feesDue := b.feesDue.getD 0
    pt := b.pt.getD "None"
    medicalCondition :=
      { hasMedicalCondition := jsTruthy b.hasMedicalCondition
        conditionDetails :=
          trimString (if jsTruthy b.hasMedicalCondition
            then b.medicalConditionDetails.getD "" else "") }
    membership := ({ months := m, feeDate := fd, endDateDays := addMonthsDays fd m } : MembershipInfo) }

/-! ## Schema validation (Mongoose casting and validators) -/

def goalValues : List String :=
  ["Gain Weight", "Lose Weight", "Maintain Weight", "Powerlifting", "Bodybuilding"]

def ptValues : List String := ["None", "Standard", "Advanced"]

/-- a string of exactly `n` decimal digits, the `match: /^\d{10}$/` and
12-digit Aadhaar validators of the schema. -/
def isDigitString (s : String) (n : Nat) : Bool :=
  s.toList.length == n && s.toList.all Char.isDigit

/-- required scalar fields whose absence makes the Mongoose cast or
`required` validator fail before any index is consulted. -/
def requiredBodyErrors (b : Body) : List String :=
  (if b.feesSubmitted = none then ["fees.submitted"] else [])
    ++ (if b.months = none then ["membership.months"] else [])
    ++ (if b.feeDate = none then ["membership.feeDate"] else [])

/-- field names failing the schema validators on a cast record: `required`
on `name` (empty string fails), the 10-digit `contact` match, the 12-digit
`aadhaar` validator, and the `goal` / `pt` enumerations. -/
def validateRecord (r : ClientRecord) : List String :=
  (if r.name = "" then ["name"] else [])
    ++ (if !isDigitString r.contact 10 then ["contact"] else [])
    ++ (if !isDigitString r.aadhaar 12 then ["aadhaar"] else [])
    ++ (if !goalValues.contains r.goal then ["goal"] else [])
    ++ (if !ptValues.contains r.pt then ["pt"] else [])

/-! ## Responses and handlers (`module.exports` of `api/clients.js`) -/

/-- the JSON responses the handler emits, abstracted to their discriminating
content: a `conflict` carries the `field` property naming the colliding
unique index, a `deleted` the `deletedClient.id` and `deletedClient.name`. -/
inductive Resp where
  | created (r : ClientRecord)
  | updated (r : ClientRecord)
  | deleted (id : Nat) (nm : String)
  | badRequest (msg : String)
  | validationFailed (fields : List String)
  | conflict (field : String)
  | notFound
deriving DecidableEq, Repr

/-- the HTTP status code each response is sent with. -/
def Resp.status : Resp → Nat
  | .created _ => 201
  | .updated _ => 200
  | .deleted _ _ => 200
  | .badRequest _ => 400
  | .validationFailed _ => 400
  | .conflict _ => 409
  | .notFound => 404

/-- store operations a handler run attempts, in order. -/
inductive StoreOp where
  | insertAttempt
  | findById (id : Nat)
  | updateById (id : Nat)
  | deleteById (id : Nat)
deriving DecidableEq, Repr

/-- the POST branch: the early required-field check answers 400 before any
store operation; otherwise `newClient.save()` runs schema validation, then
the unique indexes (duplicate key error 11000 is mapped to 409 naming the
field), then inserts. -/
def postHandler (s : Store) (b : Body) : Resp × Store × List StoreOp :=
  if jsFalsy b.name || jsFalsy b.contact || jsFalsy b.aadhaar then
    (.badRequest "Missing required fields: name, contact, or aadhaar", s, [])
  else
    let r := recordOfBody s.nextId b
    let errs := requiredBodyErrors b ++ validateRecord r
    if !errs.isEmpty then (.validationFailed errs, s, [.insertAttempt])
    else if s.records.any (fun x => x.contact == r.contact) then
      (.conflict "contact", s, [.insertAttempt])
    else if s.records.any (fun x => x.aadhaar == r.aadhaar) then
      (.conflict "aadhaar", s, [.insertAttempt])
    else (.created r, ⟨s.records ++ [r], s.nextId + 1⟩, [.insertAttempt])

/-- the PUT branch: a missing id answers 400; `findById` answers 404 when
the id is absent; otherwise the whole `updateData` record built from the
request body replaces the stored one (the §4.1 store contract
`replaceById`), after validation and the unique indexes, which on update
collide only with a different document. -/
def putHandler (s : Store) (b : Body) : Resp × Store × List StoreOp :=
  match b.id with
  | none => (.badRequest "Client ID is required for update.", s, [])
  | some id =>
    if !s.records.any (fun x => x.id == id) then (.notFound, s, [.findById id])
    else
      let r := recordOfBody id b
      let errs := requiredBodyErrors b ++ validateRecord r
      if !errs.isEmpty then (.validationFailed errs, s, [.findById id, .updateById id])
      else if s.records.any (fun x => x.id != id && x.contact == r.contact) then
        (.conflict "contact", s, [.findById id, .updateById id])
      else if s.records.any (fun x => x.id != id && x.aadhaar == r.aadhaar) then
        (.conflict "aadhaar", s, [.findById id, .updateById id])
      else
        (.updated r,
         ⟨s.records.map (fun x => if x.id == id then r else x), s.nextId⟩,
         [.findById id, .updateById id])

/-- the DELETE branch: a missing id answers 400; `findByIdAndDelete` answers
404 for an absent id, otherwise removes the document with that id and
returns a confirmation carrying the deleted id and name. -/
def deleteHandler (s : Store) (oid : Option Nat) : Resp × Store × List StoreOp :=
  match oid with
  | none => (.badRequest "Client ID is required for deletion.", s, [])
  | some id =>
    match s.records.find? (fun x => x.id == id) with
    | none => (.notFound, s, [.deleteById id])
    | some r =>
      (.deleted r.id r.name,
       ⟨s.records.filter (fun x => x.id != id), s.nextId⟩,
       [.deleteById id])

/-! ## Form submission pipeline (`handleFormSubmit` in `script.js`) -/

/-- the form field values read from the DOM at submission time; an empty
date input is `none`, a filled one the parsed `YYYY-MM-DD` civil date. -/
structure FormInput where
  name : String
  contact : String
  aadhaar : String
  heightFt : Int
  heightIn : Int
  weight : Int
  goal : String
  feesSubmitted : Int
  feesDue : Int
  pt : String
  months : Int
  feeDate : Option CivilDate
  hasMedicalCondition : Bool
  medicalConditionDetails : String
  clientId : Option Nat
deriving DecidableEq, Repr

/-- the `formData` object the form script sends, with the edit-mode id
spread in when present; the details field is pre-blanked client-side when
the flag is off, mirroring the server. -/
def bodyOfForm (f : FormInput) : Body :=
  { id := f.clientId
    name := some f.name
    contact := some f.contact
    aadhaar := some f.aadhaar
    heightFt := some f.heightFt
    heightIn := some f.heightIn
    weight := some f.weight
    goal := some f.goal
    feesSubmitted := some f.feesSubmitted
    feesDue := some f.feesDue
    pt := some f.pt
    months := some f.months
    feeDate := f.feeDate
    hasMedicalCondition := some f.hasMedicalCondition
    medicalConditionDetails :=
      some (if f.hasMedicalCondition then f.medicalConditionDetails else "") }

/-- client-side checks of `handleFormSubmit`, run before any request is
sent: required fields, then the future-date guard
`new Date(feeDate) > new Date()` comparing the UTC-midnight timestamp of
the entered date against the current instant. -/
def handleFormSubmit (f : FormInput) (nowMs : Int) : Except String Body :=
  if f.contact = "" ∨ f.feeDate = none ∨ f.aadhaar = "" then
    .error "Please fill in all required fields"
  else if (f.feeDate.getD ⟨1970, 1, 1⟩).toDays * msPerDay > nowMs then
    .error "Fee submission date cannot be in the future."
  else .ok (bodyOfForm f)

/-- outcome of one form submission: either the client-side validation throws
(no request reaches the server) or the server handler answers. -/
inductive SubmitOutcome where
  | clientValidationError (msg : String)
  | serverResponse (r : Resp)
deriving DecidableEq, Repr

/-- the full submission pipeline: client-side validation, then POST for a
new client or PUT when an edit id is present. -/
def submitForm (f : FormInput) (nowMs : Int) (s : Store) : SubmitOutcome × Store :=
  match handleFormSubmit f nowMs with
  | .error m => (.clientValidationError m, s)
  | .ok b =>
    match f.clientId with
    | none => (.serverResponse (postHandler s b).1, (postHandler s b).2.1)
    | some _ => (.serverResponse (putHandler s b).1, (putHandler s b).2.1)

/-! ## List rendering (`renderClients` in `script.js`) -/

def lowerChars (l : List Char) : List Char := l.map Char.toLower

/-- JS `String.prototype.startsWith` on character lists. -/
def startsWithChars : List Char → List Char → Bool
  | _, [] => true
  | [], _ :: _ => false
  | a :: as, b :: bs => a == b && startsWithChars as bs

/-- JS `String.prototype.includes` on character lists. -/
def containsChars : List Char → List Char → Bool
  | [], need => startsWithChars [] need
  | a :: t, need => startsWithChars (a :: t) need || containsChars t need

/-- search filtering: `client.name.toLowerCase().includes(searchTerm)` with
the search term lowercased once. -/
def filterClients (clients : List ClientRecord) (term : String) : List ClientRecord :=
  clients.filter (fun c => containsChars (lowerChars c.name.toList) (lowerChars term.toList))

/-- days remaining of one client as the render loop computes it: the stored
`endDate` instant is `endDateDays` at UTC midnight. -/
def daysRemainingOfClient (tz nowMs : Int) (c : ClientRecord) : Int :=
  calculateDaysRemaining tz (c.membership.endDateDays * msPerDay) nowMs

/-- the ascending comparator `daysA - daysB` of the render sort. -/
def clientLe (tz nowMs : Int) (a b : ClientRecord) : Bool :=
  daysRemainingOfClient tz nowMs a ≤ daysRemainingOfClient tz nowMs b

/-- the list as rendered: search-filtered, then sorted ascending by days
remaining. -/
def renderList (tz nowMs : Int) (clients : List ClientRecord) (term : String) :
    List ClientRecord :=
  (filterClients clients term).mergeSort (clientLe tz nowMs)

/-! ## WhatsApp deep link (`openWhatsApp` in `script.js`) -/

/-- `contact.replace(/\D/g, '')`. -/
def jsStripNonDigits (l : List Char) : List Char := l.filter Char.isDigit

/-- the phone number placed in the `whatsapp://send?phone=` deep link:
non-digits stripped, and country code `91` prepended only when the cleaned
number does not already start with `91`. -/
def whatsappPhone (contact : List Char) : List Char :=
  let clean := jsStripNonDigits contact
  if startsWithChars clean ['9', '1'] then clean else '9' :: '1' :: clean

/-- whether a submission outcome is a client-side validation failure. -/
def SubmitOutcome.isClientError : SubmitOutcome → Bool
  | .clientValidationError _ => true
  | .serverResponse _ => false

/-! ## Concrete fixtures used by the witnesses -/

def emptyStore : Store := ⟨[], 0⟩

def wBody : Body :=
  { id := none
    name := some "Asha Rao"
    contact := some "9876543210"
    aadhaar := some "234567890123"
    heightFt := some 5
    heightIn := some 6
    weight := some 70
    goal := some "Lose Weight"
    feesSubmitted := some 1000
    feesDue := some 0
    pt := some "None"
    months := some 3
    feeDate := some ⟨2024, 5, 10⟩
    hasMedicalCondition := some false
    medicalConditionDetails := some "" }

def wRecord : ClientRecord := recordOfBody 0 wBody

def wStore1 : Store := ⟨[wRecord], 1⟩

def wBodyDupContact : Body := { wBody with aadhaar := some "345678901234" }

def wBodyDupAadhaar : Body := { wBody with contact := some "9998887776" }

def wBodyNoName : Body := { wBody with name := none }

def wBodyMed : Body :=
  { wBody with
    contact := some "9876543212"
    aadhaar := some "456789012345"
    medicalConditionDetails := some "diabetes" }

def wBodyPut : Body :=
  { wBody with
    id := some 0
    contact := some "9876543211"
    aadhaar := some "234567890124"
    months := some 6 }

def wForm : FormInput :=
  { name := "Asha Rao"
    contact := "9876543210"
    aadhaar := "234567890123"
    heightFt := 5
    heightIn := 6
    weight := 70
    goal := "Lose Weight"
    feesSubmitted := 1000
    feesDue := 0
    pt := "None"
    months := 3
    feeDate := some ⟨2024, 5, 10⟩
    hasMedicalCondition := false
    medicalConditionDetails := ""
    clientId := none }

def wFormFuture : FormInput := { wForm with feeDate := some ⟨2024, 5, 11⟩ }

def wNow : Int := CivilDate.toDays ⟨2024, 5, 10⟩ * msPerDay + 43200000

/-! ## Lemmas about the day arithmetic -/

theorem msPerDay_pos : (0 : Int) < msPerDay := by decide

theorem jsCeilDiv_mul_cancel (k : Int) : jsCeilDiv (k * msPerDay) msPerDay = k := by
  unfold jsCeilDiv
  rw [← neg_mul, Int.mul_fdiv_cancel _ (by decide : msPerDay ≠ 0), neg_neg]

theorem calculateDaysRemaining_eq (tz endMs nowMs : Int) :
    calculateDaysRemaining tz endMs nowMs = dayIndex tz endMs - dayIndex tz nowMs := by
  unfold calculateDaysRemaining localMidnightMs
  have h : dayIndex tz endMs * msPerDay - tz - (dayIndex tz nowMs * msPerDay - tz)
      = (dayIndex tz endMs - dayIndex tz nowMs) * msPerDay := by ring
  rw [h, jsCeilDiv_mul_cancel]

/-- claim C2: for every end date and every fixed now, `calculateDaysRemaining`
equals the whole-day difference between the end date and today after both are
normalized to midnight (the ceiling is exact on whole days); it is `0` when
the end date falls on the same day as now, `1` when it falls on the next day,
`-1` when it falls on the previous day, and `isOverdue` holds exactly when
`daysRemaining < 0`. -/
theorem spec_c2_daysRemaining (tz endMs nowMs : Int) :
    calculateDaysRemaining tz endMs nowMs = dayIndex tz endMs - dayIndex tz nowMs
    ∧ (dayIndex tz endMs = dayIndex tz nowMs → calculateDaysRemaining tz endMs nowMs = 0)
    ∧ (dayIndex tz endMs = dayIndex tz nowMs + 1 → calculateDaysRemaining tz endMs nowMs = 1)
    ∧ (dayIndex tz endMs = dayIndex tz nowMs - 1 → calculateDaysRemaining tz endMs nowMs = -1)
    ∧ (isOverdue tz endMs nowMs = true ↔ calculateDaysRemaining tz endMs nowMs < 0) := by
  have h := calculateDaysRemaining_eq tz endMs nowMs
  refine ⟨h, ?_, ?_, ?_, ?_⟩
  · intro he; rw [h, he]; ring
  · intro he; rw [h, he]; ring
  · intro he; rw [h, he]; ring
  · simp [isOverdue]

theorem spec_c2_witness :
    calculateDaysRemaining 0 86400000 0 = 1
    ∧ calculateDaysRemaining 19800000 0 86400000 = -1
    ∧ (isOverdue 0 0 86400000 = true ↔ calculateDaysRemaining 0 0 86400000 < 0) :=
  ⟨(spec_c2_daysRemaining 0 86400000 0).2.2.1 (by decide),
   (spec_c2_daysRemaining 19800000 0 86400000).2.2.2.1 (by decide),
   (spec_c2_daysRemaining 0 0 86400000).2.2.2.2⟩

/-! ## Extraction lemmas for the handler branches -/

theorem postHandler_created {s : Store} {b : Body} {r : ClientRecord} {s2 : Store}
    {ops : List StoreOp} (h : postHandler s b = (.created r, s2, ops)) :
    r = recordOfBody s.nextId b
      ∧ s2 = ⟨s.records ++ [r], s.nextId + 1⟩
      ∧ ops = [.insertAttempt] := by
  simp only [postHandler] at h
  split at h
  · simp at h
  · split at h
    · simp at h
    · split at h
      · simp at h
      · split at h
        · simp at h
        · simp only [Prod.mk.injEq, Resp.created.injEq] at h
          obtain ⟨hr, hs, hops⟩ := h
          subst hr
          exact ⟨rfl, hs.symm, hops.symm⟩

theorem putHandler_updated {s : Store} {b : Body} {r : ClientRecord} {s2 : Store}
    {ops : List StoreOp} (h : putHandler s b = (.updated r, s2, ops)) :
    ∃ id, b.id = some id
      ∧ s.records.any (fun x => x.id == id) = true
      ∧ r = recordOfBody id b
      ∧ s2 = ⟨s.records.map (fun x => if x.id == id then r else x), s.nextId⟩
      ∧ ops = [.findById id, .updateById id] := by
  cases hid : b.id with
  | none => simp [putHandler, hid] at h
  | some id =>
    refine ⟨id, rfl, ?_⟩
    simp only [putHandler, hid] at h
    split at h
    · simp at h
    · split at h
      · simp at h
      · split at h
        · simp at h
        · split at h
          · simp at h
          · simp only [Prod.mk.injEq, Resp.updated.injEq] at h
            obtain ⟨hr, hs, hops⟩ := h
            subst hr
            rename_i hany _ _ _
            exact ⟨by simpa using hany, rfl, hs.symm, hops.symm⟩

/-! ## Claim theorems on the create and replace records -/

theorem recordOfBody_endDate (id : Nat) (b : Body) :
    (recordOfBody id b).membership.endDateDays
      = addMonthsDays (recordOfBody id b).membership.feeDate
          (recordOfBody id b).membership.months := rfl

/-- claim C1: every record persisted by an accepted create (POST, 201) or
replace (PUT, 200) satisfies the invariant that `membership.endDateDays` is
`membership.feeDate` advanced by `membership.months` calendar months under
the native month-rollover arithmetic `addMonthsDays`, and that record is in
the resulting store. -/
theorem spec_c1_endDate_calendar_months (s : Store) (b : Body) (r : ClientRecord)
    (s2 : Store) (ops : List StoreOp)
    (h : postHandler s b = (.created r, s2, ops) ∨ putHandler s b = (.updated r, s2, ops)) :
    r.membership.endDateDays
        = addMonthsDays r.membership.feeDate r.membership.months
      ∧ r ∈ s2.records := by
  rcases h with h | h
  · obtain ⟨hr, hs, -⟩ := postHandler_created h
    subst hs
    exact ⟨hr ▸ recordOfBody_endDate s.nextId b, by simp⟩
  · obtain ⟨id, hid, hany, hr, hs, -⟩ := putHandler_updated h
    subst hs
    refine ⟨hr ▸ recordOfBody_endDate id b, ?_⟩
    obtain ⟨x, hx, hxid⟩ := List.any_eq_true.mp hany
    exact List.mem_map.mpr ⟨x, hx, by simp [hxid]⟩

theorem jsTruthy_eq_false_iff (o : Option Bool) : jsTruthy o = false ↔ o ≠ some true := by
  cases o with
  | none => simp [jsTruthy]
  | some v => cases v <;> simp [jsTruthy]

theorem recordOfBody_medical (id : Nat) (b : Body) :
    (b.hasMedicalCondition ≠ some true
        → (recordOfBody id b).medicalCondition.conditionDetails = "")
      ∧ ((recordOfBody id b).medicalCondition.conditionDetails ≠ ""
        → (recordOfBody id b).medicalCondition.hasMedicalCondition = true) := by
  by_cases hmc : jsTruthy b.hasMedicalCondition = true
  · constructor
    · intro hne
      exact absurd hmc (by simp [jsTruthy_eq_false_iff, hne])
    · intro _
      simpa [recordOfBody] using hmc
  · have hf : jsTruthy b.hasMedicalCondition = false := by
      simpa using hmc
    have hdet : (recordOfBody id b).medicalCondition.conditionDetails = "" := by
      simp [recordOfBody, hf, trimString, trimChars]
    exact ⟨fun _ => hdet, fun hne => absurd hdet hne⟩

/-- claim C5: for every accepted create and every accepted replace, if the
submitted `hasMedicalCondition` flag is not `true` (false or absent), the
persisted `medicalCondition.conditionDetails` is the empty string whatever
`medicalConditionDetails` was submitted; hence every record the handler
produces has non-empty condition details only when the flag is true. -/
theorem spec_c5_medical_coherence (s : Store) (b : Body) (r : ClientRecord)
    (s2 : Store) (ops : List StoreOp)
    (h : postHandler s b = (.created r, s2, ops) ∨ putHandler s b = (.updated r, s2, ops)) :
    (b.hasMedicalCondition ≠ some true → r.medicalCondition.conditionDetails = "")
      ∧ (r.medicalCondition.conditionDetails ≠ ""
        → r.medicalCondition.hasMedicalCondition = true) := by
  rcases h with h | h
  · obtain ⟨hr, -, -⟩ := postHandler_created h
    exact hr ▸ recordOfBody_medical s.nextId b
  · obtain ⟨id, -, -, hr, -, -⟩ := putHandler_updated h
    exact hr ▸ recordOfBody_medical id b

/-- claim C10: a POST whose `name`, `contact` or `aadhaar` is missing or
empty is answered 400 immediately: the store is unchanged and the trace of
attempted store operations is empty, so no record is inserted. -/
theorem spec_c10_post_early_400 (s : Store) (b : Body)
    (h : (jsFalsy b.name || jsFalsy b.contact || jsFalsy b.aadhaar) = true) :
    postHandler s b
      = (.badRequest "Missing required fields: name, contact, or aadhaar", s, []) := by
  simp [postHandler, h]

/-- claim C4: when the submitted record passes the schema validators and the
store already holds a record with the same `contact`, the create is answered
with a Conflict naming `contact` (HTTP 409, not a 400 validation failure)
and the store is unchanged; likewise for `aadhaar` when the contact is
fresh. -/
theorem spec_c4_uniqueness_conflict (s : Store) (b : Body)
    (h1 : jsFalsy b.name = false) (h2 : jsFalsy b.contact = false)
    (h3 : jsFalsy b.aadhaar = false)
    (h4 : requiredBodyErrors b = [])
    (h5 : validateRecord (recordOfBody s.nextId b) = []) :
    ((s.records.any (fun x => x.contact == (recordOfBody s.nextId b).contact)) = true
      → postHandler s b = (.conflict "contact", s, [.insertAttempt])
        ∧ Resp.status (.conflict "contact") = 409)
    ∧ ((s.records.any (fun x => x.contact == (recordOfBody s.nextId b).contact)) = false
      → (s.records.any (fun x => x.aadhaar == (recordOfBody s.nextId b).aadhaar)) = true
      → postHandler s b = (.conflict "aadhaar", s, [.insertAttempt])
        ∧ Resp.status (.conflict "aadhaar") = 409) := by
  constructor
  · intro hdup
    exact ⟨by simp [postHandler, h1, h2, h3, h4, h5, hdup], rfl⟩
  · intro hc ha
    exact ⟨by simp [postHandler, h1, h2, h3, h4, h5, hc, ha], rfl⟩

/-! ## Claim theorems: delete and replace -/

theorem find_id_of_nodup (l : List ClientRecord) (r : ClientRecord) (id : Nat)
    (hnd : (l.map ClientRecord.id).Nodup) (hmem : r ∈ l) (hrid : r.id = id) :
    l.find? (fun x => x.id == id) = some r := by
  induction l with
  | nil => cases hmem
  | cons a t ih =>
    rw [List.map_cons, List.nodup_cons] at hnd
    rcases List.mem_cons.mp hmem with rfl | hmt
    · exact List.find?_cons_of_pos _ (by simp [hrid])
    · have hane : a.id ≠ id := by
        intro heq
        exact hnd.1 (heq ▸ hrid ▸ List.mem_map.mpr ⟨r, hmt, rfl⟩)
      rw [List.find?_cons_of_neg _ (by simp [hane])]
      exact ih hnd.2 hmt

theorem filter_ne_length (l : List ClientRecord) (r : ClientRecord) (id : Nat)
    (hnd : (l.map ClientRecord.id).Nodup) (hmem : r ∈ l) (hrid : r.id = id) :
    (l.filter (fun x => x.id != id)).length + 1 = l.length := by
  induction l with
  | nil => cases hmem
  | cons a t ih =>
    rw [List.map_cons, List.nodup_cons] at hnd
    rcases List.mem_cons.mp hmem with rfl | hmt
    · have hall : t.filter (fun x => x.id != id) = t := by
        refine List.filter_eq_self.mpr fun x hx => ?_
        have : x.id ≠ id := by
          intro heq
          exact hnd.1 (hrid ▸ heq ▸ List.mem_map.mpr ⟨x, hx, rfl⟩)
        simpa using this
      simp [List.filter_cons, hrid, hall]
    · have hane : a.id ≠ id := by
        intro heq
        exact hnd.1 (heq ▸ hrid ▸ List.mem_map.mpr ⟨r, hmt, rfl⟩)
      have hkeep : (a.id != id) = true := by simpa using hane
      have ih2 := ih hnd.2 hmt
      simp only [List.filter_cons, hkeep, if_true, List.length_cons]
      omega

/-- claim C6: a delete without an id is answered 400 with the store intact; a
delete of an absent id is answered Not-Found with the store intact; a delete
of a present id (ids being unique in the store) removes exactly that record,
answers with a confirmation carrying the deleted id and name, and a second
delete of the same id is then answered Not-Found. -/
theorem spec_c6_delete (s : Store) (id : Nat) :
    deleteHandler s none = (.badRequest "Client ID is required for deletion.", s, [])
    ∧ ((∀ r ∈ s.records, r.id ≠ id) →
        deleteHandler s (some id) = (.notFound, s, [.deleteById id]))
    ∧ (∀ r, (s.records.map ClientRecord.id).Nodup → r ∈ s.records → r.id = id →
        deleteHandler s (some id)
            = (.deleted id r.name,
               ⟨s.records.filter (fun x => x.id != id), s.nextId⟩, [.deleteById id])
          ∧ r ∉ s.records.filter (fun x => x.id != id)
          ∧ (∀ x ∈ s.records, x.id ≠ id → x ∈ s.records.filter (fun x => x.id != id))
          ∧ (s.records.filter (fun x => x.id != id)).length + 1 = s.records.length
          ∧ (deleteHandler ⟨s.records.filter (fun x => x.id != id), s.nextId⟩ (some id)).1
              = .notFound) := by
  refine ⟨rfl, ?_, ?_⟩
  · intro hall
    have hfind : s.records.find? (fun x => x.id == id) = none :=
      List.find?_eq_none.mpr fun x hx => by simpa using hall x hx
    simp [deleteHandler, hfind]
  · intro r hnd hmem hrid
    have hfind := find_id_of_nodup s.records r id hnd hmem hrid
    refine ⟨by simp [deleteHandler, hfind, hrid], ?_, ?_, ?_, ?_⟩
    · intro hmemf
      have h2 := (List.mem_filter.mp hmemf).2
      simp [hrid] at h2
    · intro x hx hxid
      exact List.mem_filter.mpr ⟨hx, by simpa using hxid⟩
    · exact filter_ne_length s.records r id hnd hmem hrid
    · have hnone : (s.records.filter (fun x => x.id != id)).find? (fun x => x.id == id)
          = none := by
        refine List.find?_eq_none.mpr fun x hx => ?_
        have h2 := (List.mem_filter.mp hx).2
        simpa using h2
      simp [deleteHandler, hnone]

/-- claim C7: a replace without an id is answered 400; a replace of an absent
id is answered Not-Found with the store unchanged; an accepted replace stores
exactly `recordOfBody id body` — every field a function of the request body
alone, so no stale stored value survives — with `endDate` recomputed from the
submitted `feeDate` and `months`, and only the targeted record changes. -/
theorem spec_c7_replace (s : Store) (b : Body) :
    (b.id = none → putHandler s b = (.badRequest "Client ID is required for update.", s, []))
    ∧ (∀ id, b.id = some id → (∀ x ∈ s.records, x.id ≠ id) →
        putHandler s b = (.notFound, s, [.findById id]))
    ∧ (∀ id r s2 ops, b.id = some id → putHandler s b = (.updated r, s2, ops) →
        r = recordOfBody id b
          ∧ r.membership.endDateDays
              = addMonthsDays (b.feeDate.getD ⟨1970, 1, 1⟩) (b.months.getD 0)
          ∧ s2.records = s.records.map (fun x => if x.id == id then r else x)
          ∧ s2.nextId = s.nextId) := by
  refine ⟨?_, ?_, ?_⟩
  · intro h
    simp [putHandler, h]
  · intro id hid hall
    have hany : s.records.any (fun x => x.id == id) = false :=
      List.any_eq_false.mpr fun x hx => by simpa using hall x hx
    simp [putHandler, hid, hany]
  · intro id r s2 ops hid h
    obtain ⟨id2, hid2, hany, hr, hs, -⟩ := putHandler_updated h
    rw [hid] at hid2
    cases hid2
    refine ⟨hr, ?_, by rw [hs], by rw [hs]⟩
    rw [hr]
    rfl

/-- claim C3: a form submission whose `feeDate` is strictly after the
current instant fails client-side with a validation error and the store is
untouched, for create and edit alike; a submission whose `feeDate` is the
current day (the UTC civil date of now), with the required fields filled
and an otherwise valid, non-colliding record, is accepted and persisted. -/
theorem spec_c3_feeDate_validation (f : FormInput) (nowMs : Int) (s : Store)
    (fd : CivilDate) (hfd : f.feeDate = some fd) :
    (fd.toDays * msPerDay > nowMs →
      (submitForm f nowMs s).1.isClientError = true ∧ (submitForm f nowMs s).2 = s)
    ∧ (fd.toDays = nowMs.fdiv msPerDay →
       f.name ≠ "" → f.contact ≠ "" → f.aadhaar ≠ "" →
       f.clientId = none →
       requiredBodyErrors (bodyOfForm f) = [] →
       validateRecord (recordOfBody s.nextId (bodyOfForm f)) = [] →
       (s.records.any
         (fun x => x.contact == (recordOfBody s.nextId (bodyOfForm f)).contact)) = false →
       (s.records.any
         (fun x => x.aadhaar == (recordOfBody s.nextId (bodyOfForm f)).aadhaar)) = false →
       submitForm f nowMs s
         = (.serverResponse (.created (recordOfBody s.nextId (bodyOfForm f))),
            ⟨s.records ++ [recordOfBody s.nextId (bodyOfForm f)], s.nextId + 1⟩)) := by
  constructor
  · intro hfut
    by_cases h1 : f.contact = "" ∨ f.feeDate = none ∨ f.aadhaar = ""
    · constructor <;> simp [submitForm, handleFormSubmit, h1, SubmitOutcome.isClientError]
    · have hcond : (f.feeDate.getD ⟨1970, 1, 1⟩).toDays * msPerDay > nowMs := by
        rw [hfd]
        simpa using hfut
      constructor <;>
        simp [submitForm, handleFormSubmit, h1, hcond, SubmitOutcome.isClientError]
  · intro htoday hname hc ha hcid hreq hval hdupc hdupa
    have h1 : ¬(f.contact = "" ∨ f.feeDate = none ∨ f.aadhaar = "") := by
      simp [hc, ha, hfd]
    have hnotfut : ¬((f.feeDate.getD ⟨1970, 1, 1⟩).toDays * msPerDay > nowMs) := by
      rw [hfd]
      simp only [Option.getD_some, not_lt, htoday]
      rw [Int.fdiv_eq_ediv _ (by decide : (0 : Int) ≤ msPerDay)]
      exact Int.ediv_mul_le nowMs (by decide)
    have hsub : handleFormSubmit f nowMs = .ok (bodyOfForm f) := by
      simp [handleFormSubmit, h1, hnotfut]
    have hfn : jsFalsy (bodyOfForm f).name = false := by
      simp [bodyOfForm, jsFalsy, hname]
    have hfc : jsFalsy (bodyOfForm f).contact = false := by
      simp [bodyOfForm, jsFalsy, hc]
    have hfa : jsFalsy (bodyOfForm f).aadhaar = false := by
      simp [bodyOfForm, jsFalsy, ha]
    have hpost : postHandler s (bodyOfForm f)
        = (.created (recordOfBody s.nextId (bodyOfForm f)),
           ⟨s.records ++ [recordOfBody s.nextId (bodyOfForm f)], s.nextId + 1⟩,
           [.insertAttempt]) := by
      simp [postHandler, hfn, hfc, hfa, hreq, hval, hdupc, hdupa]
    simp [submitForm, hsub, hcid, hpost]

/-- claim C8: the rendered client list is a permutation of the
search-filtered list in which successive clients have nondecreasing
days-remaining values. -/
theorem spec_c8_sorted_render (tz nowMs : Int) (clients : List ClientRecord)
    (term : String) :
    (renderList tz nowMs clients term).Perm (filterClients clients term)
    ∧ (renderList tz nowMs clients term).Pairwise
        (fun a b => daysRemainingOfClient tz nowMs a ≤ daysRemainingOfClient tz nowMs b) := by
  constructor
  · exact List.mergeSort_perm _ _
  · have h := @List.sorted_mergeSort ClientRecord (clientLe tz nowMs)
      (fun a b c hab hbc => by
        simp only [clientLe, decide_eq_true_eq] at hab hbc ⊢
        exact le_trans hab hbc)
      (fun a b => by
        simp only [clientLe, Bool.or_eq_true, decide_eq_true_eq]
        exact Int.le_total _ _)
      (filterClients clients term)
    exact h.imp (fun hab => by simpa [clientLe] using hab)

/-- claim C9: the deep-link phone number strips non-digits and prepends the
country code 91 only when the cleaned contact does not already start with
91; hence for a 10-digit contact whose first two digits are 9 and 1 the link
phone number is the bare contact, with nothing prepended. -/
theorem spec_c9_whatsapp_phone (contact : List Char)
    (hdig : ∀ c ∈ contact, c.isDigit = true)
    (hlen : contact.length = 10)
    (h91 : contact.take 2 = ['9', '1']) :
    whatsappPhone contact = contact := by
  have hclean : jsStripNonDigits contact = contact := List.filter_eq_self.mpr hdig
  cases contact with
  | nil => simp at hlen
  | cons a t =>
    cases t with
    | nil => simp at hlen
    | cons b t2 =>
      simp only [List.take_succ_cons, List.take_zero] at h91
      have h91a : a = '9' ∧ b = '1' := by
        have := h91
        simp at this
        exact this
      obtain ⟨rfl, rfl⟩ := h91a
      have hstart : startsWithChars ('9' :: '1' :: t2) ['9', '1'] = true := by
        simp [startsWithChars]
      simp [whatsappPhone, hclean, hstart]

/-! ## Witnesses -/

theorem spec_c1_witness :
    (wRecord.membership.endDateDays
        = addMonthsDays wRecord.membership.feeDate wRecord.membership.months
      ∧ wRecord ∈ (⟨[wRecord], 1⟩ : Store).records)
    ∧ addMonthsDays ⟨2024, 1, 31⟩ 1 = CivilDate.toDays ⟨2024, 3, 2⟩ :=
  ⟨spec_c1_endDate_calendar_months emptyStore wBody wRecord ⟨[wRecord], 1⟩
      [.insertAttempt] (Or.inl (by decide)),
   by decide⟩

theorem spec_c4_witness :
    (postHandler wStore1 wBodyDupContact = (.conflict "contact", wStore1, [.insertAttempt])
      ∧ Resp.status (.conflict "contact") = 409)
    ∧ (postHandler wStore1 wBodyDupAadhaar = (.conflict "aadhaar", wStore1, [.insertAttempt])
      ∧ Resp.status (.conflict "aadhaar") = 409) :=
  ⟨(spec_c4_uniqueness_conflict wStore1 wBodyDupContact (by decide) (by decide) (by decide)
      (by decide) (by decide)).1 (by decide),
   (spec_c4_uniqueness_conflict wStore1 wBodyDupAadhaar (by decide) (by decide) (by decide)
      (by decide) (by decide)).2 (by decide) (by decide)⟩

theorem spec_c5_witness :
    (recordOfBody 0 wBodyMed).medicalCondition.conditionDetails = "" :=
  (spec_c5_medical_coherence emptyStore wBodyMed (recordOfBody 0 wBodyMed)
      ⟨[recordOfBody 0 wBodyMed], 1⟩ [.insertAttempt] (Or.inl (by decide))).1 (by decide)

theorem spec_c6_witness :
    deleteHandler wStore1 (some 0)
        = (.deleted 0 wRecord.name,
           ⟨wStore1.records.filter (fun x => x.id != 0), wStore1.nextId⟩, [.deleteById 0])
    ∧ (deleteHandler ⟨wStore1.records.filter (fun x => x.id != 0), wStore1.nextId⟩
        (some 0)).1 = .notFound := by
  have h := (spec_c6_delete wStore1 0).2.2 wRecord (by decide) (by decide) (by decide)
  exact ⟨h.1, h.2.2.2.2⟩

theorem spec_c7_witness :
    (recordOfBody 0 wBodyPut).membership.endDateDays
        = addMonthsDays (wBodyPut.feeDate.getD ⟨1970, 1, 1⟩) (wBodyPut.months.getD 0)
    ∧ (⟨wStore1.records.map (fun x => if x.id == 0 then recordOfBody 0 wBodyPut else x),
         wStore1.nextId⟩ : Store).records
        = wStore1.records.map (fun x => if x.id == 0 then recordOfBody 0 wBodyPut else x) := by
  have h := (spec_c7_replace wStore1 wBodyPut).2.2 0 (recordOfBody 0 wBodyPut)
      ⟨wStore1.records.map (fun x => if x.id == 0 then recordOfBody 0 wBodyPut else x),
       wStore1.nextId⟩ [.findById 0, .updateById 0] rfl (by decide)
  exact ⟨h.2.1, h.2.2.1⟩

theorem spec_c10_witness :
    postHandler wStore1 wBodyNoName
      = (.badRequest "Missing required fields: name, contact, or aadhaar", wStore1, []) :=
  spec_c10_post_early_400 wStore1 wBodyNoName (by decide)

theorem spec_c3_witness :
    ((submitForm wFormFuture wNow emptyStore).1.isClientError = true
      ∧ (submitForm wFormFuture wNow emptyStore).2 = emptyStore)
    ∧ submitForm wForm wNow emptyStore
        = (.serverResponse (.created (recordOfBody 0 (bodyOfForm wForm))),
           ⟨[recordOfBody 0 (bodyOfForm wForm)], 1⟩) :=
  ⟨(spec_c3_feeDate_validation wFormFuture wNow emptyStore ⟨2024, 5, 11⟩ rfl).1 (by decide),
   (spec_c3_feeDate_validation wForm wNow emptyStore ⟨2024, 5, 10⟩ rfl).2 (by decide)
     (by decide) (by decide) (by decide) rfl (by decide) (by decide) (by decide) (by decide)⟩

theorem spec_c9_witness :
    whatsappPhone ("9123456789".toList) = "9123456789".toList :=
  spec_c9_whatsapp_phone ("9123456789".toList) (by decide) (by decide) (by decide)
